import Mathlib

/-!
# Shallow embedding of the Evaporative Cooling (EC) core

This file embeds the EC feature-selection core of `EvaporativeCooling.cpp`
into Lean and proves properties of it.

Modelling conventions:
* C++ `double` scores are modelled as `ℚ` (exact arithmetic).
* A `std::vector<std::pair<double, std::string>>` (`EcScores` in the source)
  is a `List (ℚ × String)`.
* C++ `unsigned int` subtraction is modelled explicitly modulo `2 ^ 32`
  (`usub32`); all other arithmetic in the source stays inside `Nat` range.
* `std::sort` with a strict comparator is modelled by `List.insertionSort`
  with the corresponding non-strict (total, transitive) relation: the source
  only relies on the output being *a* permutation sorted under the reflexive
  closure of its comparator, which `insertionSort` produces.
* The dataset collaborator is modelled by its attribute-name list; the
  `MaskRemoveAttribute(name)` call is `List.erase`, whose success result is
  ignored exactly as the source ignores the mask call's result.
* Engine invocations (`RunRandomJungle` / `RunReliefF`) and disk / console
  I/O are external; an engine run is an oracle
  `Nat → List String → Option (EcScores × EcScores)` giving, per iteration
  and current attribute set, the two normalized score lists (`none` models
  engine failure).  Score-list normalization itself is in the source and is
  embedded below (`rjNormalize`, `runReliefFNormalize`).
-/

namespace EC

open List

/-- `EcScores`: a ranked score list, pairs of (score, attribute name),
mirroring `typedef std::vector<std::pair<double, std::string>> EcScores`. -/
abbrev EcScores := List (ℚ × String)

/-- Comparator `scoresSortAsc` (source lines 44-47): order by score.
The source uses the strict `<`; the model uses the non-strict relation that
`std::sort`'s output is sorted under. -/
def scoresSortAsc (p q : ℚ × String) : Prop := p.1 ≤ q.1

/-- Comparator `scoresSortAscByName` (source lines 49-52): order by name. -/
def scoresSortAscByName (p q : ℚ × String) : Prop := p.2 ≤ q.2

/-- Comparator `scoresSortDesc` (source lines 54-57): descending by score. -/
def scoresSortDesc (p q : ℚ × String) : Prop := q.1 ≤ p.1

instance : DecidableRel scoresSortAsc :=
  fun p q => inferInstanceAs (Decidable (p.1 ≤ q.1))

instance : DecidableRel scoresSortAscByName :=
  fun p q => inferInstanceAs (Decidable (p.2 ≤ q.2))

instance : DecidableRel scoresSortDesc :=
  fun p q => inferInstanceAs (Decidable (q.1 ≤ p.1))

instance : IsTotal (ℚ × String) scoresSortAsc := ⟨fun p q => le_total p.1 q.1⟩

instance : IsTrans (ℚ × String) scoresSortAsc :=
  ⟨fun _ _ _ h1 h2 => le_trans h1 h2⟩

instance : IsTotal (ℚ × String) scoresSortAscByName :=
  ⟨fun p q => le_total p.2 q.2⟩

instance : IsTrans (ℚ × String) scoresSortAscByName :=
  ⟨fun _ _ _ h1 h2 => le_trans h1 h2⟩

instance : IsTotal (ℚ × String) scoresSortDesc := ⟨fun p q => le_total q.1 p.1⟩

instance : IsTrans (ℚ × String) scoresSortDesc :=
  ⟨fun _ _ _ h1 h2 => le_trans h2 h1⟩

/-- The EC algorithm mode (`AnalysisType` member `algorithmType`):
`EC_ALL` runs both engines, `EC_RJ` Random Jungle only, `EC_RF` Relief-F
only. -/
inductive AlgorithmType
  | EC_ALL
  | EC_RJ
  | EC_RF
deriving DecidableEq, Repr

/-- `EvaporativeCooling::ComputeFreeEnergy` (source lines 901-941).
For `EC_ALL` it requires equal list sizes (else fails, returning `none` for
the C++ `return false`), sorts both lists ascending by attribute name and
combines positionally: score = rf + temperature * rj, name taken from the
Random Jungle entry.  For the single-engine modes it copies the respective
list. -/
def computeFreeEnergy (algorithmType : AlgorithmType) (temperature : ℚ)
    (rjScores rfScores : EcScores) : Option EcScores :=
  match algorithmType with
  | .EC_ALL =>
    if rjScores.length ≠ rfScores.length then none
    else
      some (List.zipWith (fun rj rf => (rf.1 + temperature * rj.1, rj.2))
        (List.insertionSort scoresSortAscByName rjScores)
        (List.insertionSort scoresSortAscByName rfScores))
  | .EC_RJ => some (rjScores.map (fun p => (p.1, p.2)))
  | .EC_RF => some (rfScores.map (fun p => (p.1, p.2)))

/-- Min/max accumulation of `ReadRandomJungleScores` (source lines 769-780):
per line, `if key < min` update min, `else if key > max` update max. -/
def rjMinMaxAux : List (ℚ × String) → ℚ → ℚ → ℚ × ℚ
  | [], mn, mx => (mn, mx)
  | p :: rest, mn, mx =>
    if p.1 < mn then rjMinMaxAux rest p.1 mx
    else if p.1 > mx then rjMinMaxAux rest mn p.1
    else rjMinMaxAux rest mn mx

/-- Min/max of the Random Jungle score list: both are seeded with the first
line's score (source lines 769-771); `(0, 0)` for an empty list (source
lines 751-752 initialise both to `0`, and no line updates them). -/
def rjMinMax : EcScores → ℚ × ℚ
  | [] => (0, 0)
  | p :: rest => rjMinMaxAux rest p.1 p.1

/-- Normalization step of `EvaporativeCooling::ReadRandomJungleScores`
(source lines 786-806): if min = max, a warning is printed and the rebuilt
list keeps every pair unchanged; otherwise each score `s` becomes
`(s - min) / (max - min)`.  The function always succeeds (the source
returns `true` on both paths). -/
def rjNormalize (scores : EcScores) : EcScores :=
  let mm := rjMinMax scores
  let needsNormalization := mm.1 ≠ mm.2
  scores.map (fun p =>
    if needsNormalization then ((p.1 - mm.1) / (mm.2 - mm.1), p.2)
    else (p.1, p.2))

/-- Min/max accumulation of `EvaporativeCooling::RunReliefF` (source lines
856-865): two independent comparisons per element. -/
def rfMinMaxAux : List (ℚ × String) → ℚ → ℚ → ℚ × ℚ
  | [], mn, mx => (mn, mx)
  | p :: rest, mn, mx =>
    rfMinMaxAux rest (if p.1 < mn then p.1 else mn) (if p.1 > mx then p.1 else mx)

/-- Min/max of the Relief-F score list, seeded with `rfScores[0]` (source
lines 853-855) and folded over the whole list (the first element is compared
against itself once, which is harmless).  The source indexes `rfScores[0]`
unconditionally; its callers always supply at least one score, and the
model returns `(0, 0)` on `[]`. -/
def rfMinMax : EcScores → ℚ × ℚ
  | [] => (0, 0)
  | p :: rest => rfMinMaxAux (p :: rest) p.1 p.1

/-- Normalization step of `EvaporativeCooling::RunReliefF` (source lines
867-888): on a degenerate range (min = max) it warns and returns with the
scores untouched; otherwise it rebuilds the list with
`(s - min) / (max - min)`.  The `Bool` is the source's return value, `true`
on both paths. -/
def runReliefFNormalize (rfScores : EcScores) : EcScores × Bool :=
  let mm := rfMinMax rfScores
  if mm.1 = mm.2 then (rfScores, true)
  else (rfScores.map (fun p => ((p.1 - mm.1) / (mm.2 - mm.1), p.2)), true)

/-- C++ `unsigned int` subtraction `a - b` (32-bit wraparound), for
`a, b < 2 ^ 32`. -/
def usub32 (a b : Nat) : Nat := (a + 2 ^ 32 - b) % 2 ^ 32

/-- The clamping step at the head of
`EvaporativeCooling::RemoveWorstAttributes` (source lines 952-960):
`numToRemoveAdj = numToRemove`, adjusted to `numAttr - numTargetAttributes`
when `numAttr - numToRemove < numTargetAttributes` — all in `unsigned int`
arithmetic. -/
def adjustedRemoveCount (numAttr numTargetAttributes numToRemove : Nat) : Nat :=
  if usub32 numAttr numToRemove < numTargetAttributes then
    usub32 numAttr numTargetAttributes
  else numToRemove

/-- Result of one `RemoveWorstAttributes` call: the fused list as left by
the in-place `std::sort` (ascending by score), the grown audit
(`evaporatedAttributes`) list, the dataset's attribute names after the
mask-remove calls, and the function's returned success flag. -/
structure RemovalResult where
  sortedScores : EcScores
  evaporated : EcScores
  dataset : List String
  success : Bool
deriving Repr

/-- `EvaporativeCooling::RemoveWorstAttributes` (source lines 951-977).
Sorts the fused (`freeEnergyScores`) list ascending by score, then walks the
first `numToRemoveAdj` entries: each is appended to `evaporatedAttributes`
and its name is passed to `dataset->MaskRemoveAttribute`, whose result the
source discards.  The function returns `true` unconditionally (source line
976).  The source's `freeEnergyScores[i]` loop is defined only when
`numToRemoveAdj` is at most the list length (otherwise the C++ indexes out
of bounds); `List.take` restricts the model to the in-bounds reads. -/
def removeWorstAttributes (numAttr numTargetAttributes numToRemove : Nat)
    (freeEnergyScores evaporatedAttributes : EcScores) (dataset : List String) :
    RemovalResult :=
  let numToRemoveAdj := adjustedRemoveCount numAttr numTargetAttributes numToRemove
  let sorted := List.insertionSort scoresSortAsc freeEnergyScores
  let removed := sorted.take numToRemoveAdj
  { sortedScores := sorted
    evaporated := evaporatedAttributes ++ removed
    dataset := removed.foldl (fun d p => d.erase p.2) dataset
    success := true }

/-- The target-count validation in the `EvaporativeCooling` constructor
(source lines 80-90): the program exits when `numTargetAttributes < 1` or
`numTargetAttributes > dataset->NumAttributes()`; otherwise construction
proceeds.  `true` means the configuration is accepted. -/
def ecConstructorAccepts (numTargetAttributes numAttrs : Nat) : Bool :=
  if numTargetAttributes < 1 then false
  else if numTargetAttributes > numAttrs then false
  else true

/-- An engine oracle: per iteration index and current attribute-name list,
the normalized Random Jungle and Relief-F score lists delivered by
`RunRandomJungle` / `RunReliefF`, or `none` when an engine run fails. -/
abbrev EngineOracle := Nat → List String → Option (EcScores × EcScores)

/-- Outcome of one pass through the body of the `while` loop of
`EvaporativeCooling::ComputeECScores` (source lines 226-305). -/
inductive ECIterResult
  /-- The run aborts: an engine run or `ComputeFreeEnergy` or
  `RemoveWorstAttributes` returned `false` (the `return false` branches at
  source lines 240-243, 253-256, 266-269, 295-298). -/
  | failed : ECIterResult
  /-- The `break` at source lines 290-292: the clamped removal count is 0
  while the working count is still above target; the loop exits with the
  current working count and the fused list just computed. -/
  | stalled (working : Nat) (freeEnergyScores : EcScores) : ECIterResult
  /-- The loop body completed: next iteration index, decremented working
  count, updated dataset, audit list, and the fused list as left (sorted
  ascending) by `RemoveWorstAttributes`. -/
  | next (iteration working : Nat) (dataset : List String)
      (evaporated freeEnergyScores : EcScores) : ECIterResult

/-- One pass through the body of the `while` loop of `ComputeECScores`
(source lines 226-305), entered with `working > target`:
run the engines, fuse with temperature 1.0 (source line 265), recompute this
round's removal request (`sched` applied to the dataset's current attribute
count, covering both the fixed `ec-iter-remove-n` count and the
`ec-iter-remove-percent` recomputation at source lines 280-286), clamp it
against the working count (source lines 287-289), `break` when it reaches 0,
otherwise remove the worst attributes and decrement the working count. -/
def ecIter (mode : AlgorithmType) (target : Nat) (sched : Nat → Nat)
    (engines : EngineOracle) (iteration working : Nat) (dataset : List String)
    (evaporated : EcScores) : ECIterResult :=
  match engines iteration dataset with
  | none => .failed
  | some (rjScores, rfScores) =>
    match computeFreeEnergy mode 1 rjScores rfScores with
    | none => .failed
    | some freeEnergyScores =>
      let numToRemove := sched dataset.length
      let clamped :=
        if usub32 working numToRemove < target then working - target
        else numToRemove
      if clamped < 1 then .stalled working freeEnergyScores
      else
        let r := removeWorstAttributes dataset.length target clamped
          freeEnergyScores evaporated dataset
        if r.success then
          .next (iteration + 1) (usub32 working clamped) r.dataset
            r.evaporated r.sortedScores
        else .failed

/-- The `while (numWorkingAttributes > numTargetAttributes)` loop of
`ComputeECScores` (source lines 226-305), with explicit fuel.
Result: `none` = fuel exhausted (the loop has not terminated within `fuel`
iterations); `some none` = the run FAILED (a `return false` branch);
`some (some (w, fes))` = the loop exited (converged or stalled) with final
working count `w` and final fused list `fes`. -/
def ecLoop (mode : AlgorithmType) (target : Nat) (sched : Nat → Nat)
    (engines : EngineOracle) :
    Nat → Nat → Nat → List String → EcScores → EcScores →
    Option (Option (Nat × EcScores))
  | 0, _, _, _, _, _ => none
  | fuel + 1, iteration, working, dataset, evaporated, freeEnergyScores =>
    if working ≤ target then some (some (working, freeEnergyScores))
    else
      match ecIter mode target sched engines iteration working dataset
          evaporated with
      | .failed => some none
      | .stalled w fes => some (some (w, fes))
      | .next it w ds ev fes =>
        ecLoop mode target sched engines fuel it w ds ev fes

/-- `EvaporativeCooling::ComputeECScores` (source lines 210-318): the
initial working count is the dataset's attribute count (line 211); if it is
not strictly above the target the function returns `false` at once (lines
212-218); otherwise the loop runs and, on exit, the fused list is sorted
descending by score and its first `target` entries become the EC scores
(lines 311-315).  `some none` = the run returned `false`; `some (some l)` =
success with EC scores `l`. -/
def computeECScores (mode : AlgorithmType) (target : Nat) (sched : Nat → Nat)
    (engines : EngineOracle) (fuel : Nat) (dataset : List String) :
    Option (Option EcScores) :=
  if dataset.length ≤ target then some none
  else
    match ecLoop mode target sched engines fuel 1 dataset.length dataset [] [] with
    | none => none
    | some none => some none
    | some (some (_, freeEnergyScores)) =>
      some (some ((List.insertionSort scoresSortDesc freeEnergyScores).take target))

/-- The working-count dynamics of the `ComputeECScores` loop over `k`
iterations, projected from `ecIter` for runs whose engine calls succeed and
whose dataset attribute count stays in step with the working counter (which
is how the source keeps them: both start at `dataset->NumAttributes()`).
Mirrors source lines 226, 280-292, 299: recompute the removal request,
clamp it against the working count, stop on 0, else subtract in
`unsigned int` arithmetic. -/
def workingAfter (target : Nat) (sched : Nat → Nat) : Nat → Nat → Nat
  | working, 0 => working
  | working, k + 1 =>
    if working ≤ target then working
    else
      let numToRemove := sched working
      let clamped :=
        if usub32 working numToRemove < target then working - target
        else numToRemove
      if clamped < 1 then working
      else workingAfter target sched (usub32 working clamped) k

/-- An engine oracle that always succeeds with the same two score lists. -/
def constantEngines (rjScores rfScores : EcScores) : EngineOracle :=
  fun _ _ => some (rjScores, rfScores)

/-! ## Helper lemmas -/

lemma sorted_snd_of_sorted_byName {l : EcScores}
    (h : List.Sorted scoresSortAscByName l) :
    List.Sorted (· ≤ ·) (l.map Prod.snd) :=
  List.pairwise_map.mpr h

lemma insertionSort_byName_map_snd_eq {rj rf : EcScores}
    (hperm : rj.map Prod.snd ~ rf.map Prod.snd) :
    (List.insertionSort scoresSortAscByName rj).map Prod.snd =
      (List.insertionSort scoresSortAscByName rf).map Prod.snd := by
  have hs1 : List.Sorted (· ≤ ·)
      ((List.insertionSort scoresSortAscByName rj).map Prod.snd) :=
    sorted_snd_of_sorted_byName (List.sorted_insertionSort scoresSortAscByName rj)
  have hs2 : List.Sorted (· ≤ ·)
      ((List.insertionSort scoresSortAscByName rf).map Prod.snd) :=
    sorted_snd_of_sorted_byName (List.sorted_insertionSort scoresSortAscByName rf)
  have hp : (List.insertionSort scoresSortAscByName rj).map Prod.snd ~
      (List.insertionSort scoresSortAscByName rf).map Prod.snd :=
    ((List.perm_insertionSort scoresSortAscByName rj).map Prod.snd).trans
      (hperm.trans ((List.perm_insertionSort scoresSortAscByName rf).map Prod.snd).symm)
  exact List.eq_of_perm_of_sorted hp hs1 hs2

lemma if_lt_eq_min (a b : ℚ) : (if a < b then a else b) = min b a := by
  split_ifs with h
  · exact (min_eq_right h.le).symm
  · exact (min_eq_left (not_lt.mp h)).symm

lemma if_gt_eq_max (a b : ℚ) : (if a > b then a else b) = max b a := by
  split_ifs with h
  · exact (max_eq_right h.le).symm
  · exact (max_eq_left (not_lt.mp h)).symm

lemma foldl_min_le_init (s : List ℚ) : ∀ a : ℚ, s.foldl min a ≤ a := by
  induction s with
  | nil => intro a; exact le_refl a
  | cons b s ih =>
    intro a
    exact le_trans (ih (min a b)) (min_le_left a b)

lemma foldl_min_le_mem (s : List ℚ) : ∀ (a x : ℚ), x ∈ s → s.foldl min a ≤ x := by
  induction s with
  | nil => intro a x hx; cases hx
  | cons b s ih =>
    intro a x hx
    rw [List.foldl_cons]
    rcases List.mem_cons.mp hx with h | h
    · subst h
      exact le_trans (foldl_min_le_init s (min a x)) (min_le_right a x)
    · exact ih (min a b) x h

lemma le_foldl_min (s : List ℚ) : ∀ (a b : ℚ), b ≤ a → (∀ x ∈ s, b ≤ x) →
    b ≤ s.foldl min a := by
  induction s with
  | nil => intro a b hb _; exact hb
  | cons c s ih =>
    intro a b hb hs
    exact ih (min a c) b (le_min hb (hs c (List.mem_cons_self c s)))
      (fun x hx => hs x (List.mem_cons_of_mem c hx))

lemma foldl_min_choice (s : List ℚ) : ∀ a : ℚ, s.foldl min a = a ∨ s.foldl min a ∈ s := by
  induction s with
  | nil => intro a; exact Or.inl rfl
  | cons b s ih =>
    intro a
    rw [List.foldl_cons]
    rcases le_total a b with hab | hab
    · rw [min_eq_left hab]
      rcases ih a with h | h
      · exact Or.inl h
      · exact Or.inr (List.mem_cons_of_mem b h)
    · rw [min_eq_right hab]
      rcases ih b with h | h
      · refine Or.inr ?_
        rw [h]
        exact List.mem_cons_self b s
      · exact Or.inr (List.mem_cons_of_mem b h)

lemma init_le_foldl_max (s : List ℚ) : ∀ a : ℚ, a ≤ s.foldl max a := by
  induction s with
  | nil => intro a; exact le_refl a
  | cons b s ih =>
    intro a
    exact le_trans (le_max_left a b) (ih (max a b))

lemma mem_le_foldl_max (s : List ℚ) : ∀ (a x : ℚ), x ∈ s → x ≤ s.foldl max a := by
  induction s with
  | nil => intro a x hx; cases hx
  | cons b s ih =>
    intro a x hx
    rw [List.foldl_cons]
    rcases List.mem_cons.mp hx with h | h
    · subst h
      exact le_trans (le_max_right a x) (init_le_foldl_max s (max a x))
    · exact ih (max a b) x h

lemma foldl_max_le (s : List ℚ) : ∀ (a b : ℚ), a ≤ b → (∀ x ∈ s, x ≤ b) →
    s.foldl max a ≤ b := by
  induction s with
  | nil => intro a b hb _; exact hb
  | cons c s ih =>
    intro a b hb hs
    exact ih (max a c) b (max_le hb (hs c (List.mem_cons_self c s)))
      (fun x hx => hs x (List.mem_cons_of_mem c hx))

lemma foldl_max_choice (s : List ℚ) : ∀ a : ℚ, s.foldl max a = a ∨ s.foldl max a ∈ s := by
  induction s with
  | nil => intro a; exact Or.inl rfl
  | cons b s ih =>
    intro a
    rw [List.foldl_cons]
    rcases le_total b a with hab | hab
    · rw [max_eq_left hab]
      rcases ih a with h | h
      · exact Or.inl h
      · exact Or.inr (List.mem_cons_of_mem b h)
    · rw [max_eq_right hab]
      rcases ih b with h | h
      · refine Or.inr ?_
        rw [h]
        exact List.mem_cons_self b s
      · exact Or.inr (List.mem_cons_of_mem b h)

lemma rfMinMaxAux_eq (l : EcScores) : ∀ mn mx : ℚ,
    rfMinMaxAux l mn mx =
      ((l.map Prod.fst).foldl min mn, (l.map Prod.fst).foldl max mx) := by
  induction l with
  | nil => intro mn mx; rfl
  | cons p rest ih =>
    intro mn mx
    rw [rfMinMaxAux, ih, if_lt_eq_min, if_gt_eq_max]
    simp [List.foldl_cons]

lemma rjMinMaxAux_eq (l : EcScores) : ∀ mn mx : ℚ, mn ≤ mx →
    rjMinMaxAux l mn mx =
      ((l.map Prod.fst).foldl min mn, (l.map Prod.fst).foldl max mx) := by
  induction l with
  | nil => intro mn mx _; rfl
  | cons p rest ih =>
    intro mn mx h
    rw [rjMinMaxAux]
    split_ifs with h1 h2
    · rw [ih p.1 mx (h1.le.trans h)]
      simp [List.foldl_cons, min_eq_right h1.le, max_eq_left (h1.le.trans h)]
    · rw [ih mn p.1 (h.trans h2.le)]
      simp [List.foldl_cons, min_eq_left (not_lt.mp h1), max_eq_right h2.le]
    · rw [ih mn mx h]
      simp [List.foldl_cons, min_eq_left (not_lt.mp h1),
        max_eq_left (not_lt.mp h2)]

lemma rjMinMax_eq_rfMinMax (l : EcScores) : rjMinMax l = rfMinMax l := by
  cases l with
  | nil => rfl
  | cons p rest =>
    rw [rjMinMax, rfMinMax, rjMinMaxAux_eq rest p.1 p.1 (le_refl p.1),
      rfMinMaxAux_eq (p :: rest) p.1 p.1]
    simp [List.foldl_cons]

/-- The min/max pass of both normalizers computes a lower bound, an upper
bound, and both bounds are attained by some list entry. -/
lemma rjMinMax_spec (p : ℚ × String) (rest : EcScores) :
    (∀ q ∈ p :: rest, (rjMinMax (p :: rest)).1 ≤ q.1 ∧
      q.1 ≤ (rjMinMax (p :: rest)).2) ∧
    (∃ q ∈ p :: rest, q.1 = (rjMinMax (p :: rest)).1) ∧
    (∃ q ∈ p :: rest, q.1 = (rjMinMax (p :: rest)).2) := by
  rw [rjMinMax, rjMinMaxAux_eq rest p.1 p.1 (le_refl p.1)]
  dsimp only
  refine ⟨?_, ?_, ?_⟩
  · intro q hq
    rcases List.mem_cons.mp hq with h | h
    · exact h ▸ ⟨foldl_min_le_init _ _, init_le_foldl_max _ _⟩
    · exact ⟨foldl_min_le_mem _ _ _ (List.mem_map_of_mem Prod.fst h),
        mem_le_foldl_max _ _ _ (List.mem_map_of_mem Prod.fst h)⟩
  · rcases foldl_min_choice (rest.map Prod.fst) p.1 with h | h
    · exact ⟨p, List.mem_cons_self p rest, h.symm⟩
    · obtain ⟨q, hq, hq2⟩ := List.mem_map.mp h
      exact ⟨q, List.mem_cons_of_mem p hq, hq2⟩
  · rcases foldl_max_choice (rest.map Prod.fst) p.1 with h | h
    · exact ⟨p, List.mem_cons_self p rest, h.symm⟩
    · obtain ⟨q, hq, hq2⟩ := List.mem_map.mp h
      exact ⟨q, List.mem_cons_of_mem p hq, hq2⟩

lemma usub32_eq_sub {a b : Nat} (h1 : b ≤ a) (h2 : a < 2 ^ 32) :
    usub32 a b = a - b := by
  unfold usub32
  omega

lemma computeFreeEnergy_length {mode : AlgorithmType} {temperature : ℚ}
    {rjScores rfScores fes : EcScores} {n : Nat}
    (hrj : rjScores.length = n) (hrf : rfScores.length = n)
    (h : computeFreeEnergy mode temperature rjScores rfScores = some fes) :
    fes.length = n := by
  cases mode with
  | EC_ALL =>
    rw [computeFreeEnergy] at h
    rw [if_neg (by omega)] at h
    cases h
    simp [List.length_zipWith, List.length_insertionSort, hrj, hrf]
  | EC_RJ =>
    rw [computeFreeEnergy] at h
    cases h
    simp [hrj]
  | EC_RF =>
    rw [computeFreeEnergy] at h
    cases h
    simp [hrf]

lemma map_snd_zipWith_fusion (temperature : ℚ) :
    ∀ (A B : EcScores), A.length = B.length →
      (List.zipWith (fun rj rf => (rf.1 + temperature * rj.1, rj.2)) A B).map
        Prod.snd = A.map Prod.snd := by
  intro A
  induction A with
  | nil => intro B _; rfl
  | cons a A ih =>
    intro B hB
    cases B with
    | nil => cases hB
    | cons b B =>
      simp only [List.zipWith_cons_cons, List.map_cons, List.cons.injEq]
      exact ⟨trivial, ih B (by simpa using hB)⟩

lemma computeFreeEnergy_names_perm {mode : AlgorithmType} {temperature : ℚ}
    {rjScores rfScores fes : EcScores} {ds : List String}
    (hrj : rjScores.map Prod.snd ~ ds) (hrf : rfScores.map Prod.snd ~ ds)
    (h : computeFreeEnergy mode temperature rjScores rfScores = some fes) :
    fes.map Prod.snd ~ ds := by
  cases mode with
  | EC_ALL =>
    have hlen : rjScores.length = rfScores.length := by
      have h1 : rjScores.length = ds.length := by simpa using hrj.length_eq
      have h2 : rfScores.length = ds.length := by simpa using hrf.length_eq
      omega
    rw [computeFreeEnergy] at h
    rw [if_neg (by omega)] at h
    cases h
    rw [map_snd_zipWith_fusion temperature _ _
      (by simp [List.length_insertionSort, hlen])]
    exact ((List.perm_insertionSort scoresSortAscByName rjScores).map
      Prod.snd).trans hrj
  | EC_RJ =>
    rw [computeFreeEnergy] at h
    cases h
    simpa using hrj
  | EC_RF =>
    rw [computeFreeEnergy] at h
    cases h
    simpa using hrf

lemma foldl_erase_exact (removed : EcScores) : ∀ ds : List String, ds.Nodup →
    (removed.map Prod.snd).Nodup → (∀ p ∈ removed, p.2 ∈ ds) →
    (removed.foldl (fun d p => d.erase p.2) ds).length =
      ds.length - removed.length ∧
    (removed.foldl (fun d p => d.erase p.2) ds).Nodup := by
  induction removed with
  | nil => intro ds h _ _; exact ⟨rfl, h⟩
  | cons p rest ih =>
    intro ds hds hnames hmem
    rw [List.map_cons, List.nodup_cons] at hnames
    have hp : p.2 ∈ ds := hmem p (List.mem_cons_self p rest)
    have hrest : ∀ q ∈ rest, q.2 ∈ ds.erase p.2 := by
      intro q hq
      refine hds.mem_erase_iff.mpr ⟨?_, hmem q (List.mem_cons_of_mem p hq)⟩
      intro he
      exact hnames.1 (he ▸ List.mem_map_of_mem Prod.snd hq)
    rw [List.foldl_cons]
    obtain ⟨hl, hn⟩ := ih (ds.erase p.2) (hds.erase p.2) hnames.2 hrest
    refine ⟨?_, hn⟩
    rw [hl, List.length_erase_of_mem hp]
    have : 1 ≤ ds.length := List.length_pos.mpr (List.ne_nil_of_mem hp)
    simp only [List.length_cons]
    omega

/-- The dataset after one pruning round: removing the `k` worst-scored
entries of a fused list whose names are exactly the dataset's (distinct)
attribute names shrinks the dataset by exactly `k` and keeps it
duplicate-free. -/
lemma erase_fold_take_sorted (fes : EcScores) (ds : List String) (k : Nat)
    (hds : ds.Nodup) (hperm : fes.map Prod.snd ~ ds) (hk : k ≤ fes.length) :
    (((List.insertionSort scoresSortAsc fes).take k).foldl
      (fun d p => d.erase p.2) ds).length = ds.length - k ∧
    (((List.insertionSort scoresSortAsc fes).take k).foldl
      (fun d p => d.erase p.2) ds).Nodup := by
  have hsp : (List.insertionSort scoresSortAsc fes).map Prod.snd ~ ds :=
    ((List.perm_insertionSort scoresSortAsc fes).map Prod.snd).trans hperm
  have hsnodup : ((List.insertionSort scoresSortAsc fes).map Prod.snd).Nodup :=
    hsp.nodup_iff.mpr hds
  have htnodup : (((List.insertionSort scoresSortAsc fes).take k).map
      Prod.snd).Nodup := by
    rw [List.map_take]
    exact hsnodup.sublist (List.take_sublist _ _)
  have htmem : ∀ p ∈ (List.insertionSort scoresSortAsc fes).take k,
      p.2 ∈ ds := by
    intro p hp
    exact hsp.mem_iff.mp
      (List.mem_map_of_mem Prod.snd (List.mem_of_mem_take hp))
  have hlen : ((List.insertionSort scoresSortAsc fes).take k).length = k := by
    rw [List.length_take, List.length_insertionSort]
    omega
  obtain ⟨h1, h2⟩ := foldl_erase_exact _ ds hds htnodup htmem
  rw [hlen] at h1
  exact ⟨h1, h2⟩

/-! ## Claims -/

/-- C1.  In mode BOTH (`EC_ALL`), `ComputeFreeEnergy` first sorts the
main-effect (Random Jungle) and interaction (Relief-F) score lists ascending
by attribute name and then produces, entry by entry of the aligned lists, a
fused score `interactionScore + temperature * mainEffectScore` carrying the
attribute name; when the two lists hold the same attribute names, the
name-sorted lists agree position by position on names, so each fused entry
combines the two scores of one and the same attribute. -/
theorem computeFreeEnergy_EC_ALL_fuses_by_name (temperature : ℚ)
    (rjScores rfScores : EcScores)
    (hperm : rjScores.map Prod.snd ~ rfScores.map Prod.snd) :
    computeFreeEnergy .EC_ALL temperature rjScores rfScores =
      some (List.zipWith (fun rj rf => (rf.1 + temperature * rj.1, rj.2))
        (List.insertionSort scoresSortAscByName rjScores)
        (List.insertionSort scoresSortAscByName rfScores)) ∧
    (List.insertionSort scoresSortAscByName rjScores).map Prod.snd =
      (List.insertionSort scoresSortAscByName rfScores).map Prod.snd := by
  have hlen : rjScores.length = rfScores.length := by
    simpa using hperm.length_eq
  exact ⟨by simp [computeFreeEnergy, hlen], insertionSort_byName_map_snd_eq hperm⟩

/-- C1 witness: the spec's worked example.  With temperature 1, main-effect
list `[(0.2, x), (0.8, y)]` and interaction list `[(0.5, x), (0.1, y)]`, the
fused scores are 0.7 for `x` and 0.9 for `y`. -/
theorem computeFreeEnergy_EC_ALL_fuses_by_name_witness :
    (([((1:ℚ)/5, "x"), (4/5, "y")] : EcScores).map Prod.snd ~
      ([((1:ℚ)/2, "x"), (1/10, "y")] : EcScores).map Prod.snd) ∧
    computeFreeEnergy .EC_ALL 1 [((1:ℚ)/5, "x"), (4/5, "y")]
      [((1:ℚ)/2, "x"), (1/10, "y")] = some [(7/10, "x"), (9/10, "y")] := by
  have hperm : (([((1:ℚ)/5, "x"), (4/5, "y")] : EcScores).map Prod.snd ~
      ([((1:ℚ)/2, "x"), (1/10, "y")] : EcScores).map Prod.snd) := by simp
  refine ⟨hperm, ?_⟩
  rw [(computeFreeEnergy_EC_ALL_fuses_by_name 1 _ _ hperm).1]
  have hxy : ("x" : String) ≤ "y" := by
    rw [String.le_iff_toList_le]
    decide
  norm_num [List.insertionSort, List.orderedInsert, scoresSortAscByName, hxy]

/-- C2 counterexample: a configuration whose target attribute count equals
the initial attribute count passes the constructor's validation (the source
only rejects `numTargetAttributes > dataset->NumAttributes()`), contradicting
the claim that it is rejected at construction. -/
theorem ecConstructorAccepts_target_eq_count : ecConstructorAccepts 5 5 = true := by
  decide

/-- C2 (amended).  Construction fails fast exactly when
`targetAttributeCount < 1` or `targetAttributeCount >` the initial attribute
count; a target equal to the initial count is accepted at construction, and
the subsequent `ComputeECScores` call then returns failure up front (before
any loop iteration) because the working count is not strictly above the
target. -/
theorem ecConstructorAccepts_false_iff :
    (∀ target numAttrs, ecConstructorAccepts target numAttrs = false ↔
      (target < 1 ∨ numAttrs < target)) ∧
    (∀ mode sched engines fuel (dataset : List String),
      computeECScores mode dataset.length sched engines fuel dataset = some none) := by
  constructor
  · intro target numAttrs
    unfold ecConstructorAccepts
    split_ifs with h1 h2 <;> simp <;> omega
  · intro mode sched engines fuel dataset
    simp [computeECScores]

/-- C3: the claimed universal clamp in `RemoveWorstAttributes` fails because
the guard subtracts in `unsigned int` arithmetic.  With 10 working
attributes, target 7 and request 5 the clamp works as claimed (3 removed),
but with 2 working attributes, target 1 and request 3 the guard computes
`2 - 3 = 4294967295`, which is not `< 1`, so no clamping happens: the
adjusted count stays 3, exceeding `working - target = 1` (and the source
then indexes `freeEnergyScores[2]` out of bounds). -/
theorem adjustedRemoveCount_underflow :
    adjustedRemoveCount 10 7 5 = 3 ∧
    adjustedRemoveCount 2 1 3 = 3 ∧ ¬ adjustedRemoveCount 2 1 3 ≤ 2 - 1 := by
  decide

/-- C7: the working attribute count is not non-increasing across iterations.
With target 1, 5 initial attributes and a configured per-iteration removal
of 3, the first pruning round brings the count from 5 to 2, and the second
round's clamp guard underflows (`2 - 3` in `unsigned int` is 4294967295,
not `< 1`), so 3 is subtracted from 2 in unsigned arithmetic and the working
count jumps up to 4294967295 — an increase, and a round in which the source
also indexes the fused list out of bounds. -/
theorem workingAfter_increases :
    workingAfter 1 (fun _ => 3) 5 1 = 2 ∧
    workingAfter 1 (fun _ => 3) 5 2 = 4294967295 ∧
    workingAfter 1 (fun _ => 3) 5 1 < workingAfter 1 (fun _ => 3) 5 2 := by
  decide

/-- C10.  `RemoveWorstAttributes` returns `true` for every input (the
source never reads the result of `dataset->MaskRemoveAttribute`), so once an
iteration's engine runs and fusion have succeeded, the iteration cannot end
in the FAILED outcome: the caller's `return false` branch after pruning is
unreachable. -/
theorem removeWorstAttributes_always_succeeds (numAttr target numToRemove : Nat)
    (freeEnergyScores evaporated : EcScores) (dataset : List String)
    (_hadj : adjustedRemoveCount numAttr target numToRemove ≤ freeEnergyScores.length) :
    (removeWorstAttributes numAttr target numToRemove freeEnergyScores
      evaporated dataset).success = true ∧
    (∀ mode sched engines iteration working (ds2 : List String)
        (evap2 : EcScores) rjScores rfScores fes,
      engines iteration ds2 = some (rjScores, rfScores) →
      computeFreeEnergy mode 1 rjScores rfScores = some fes →
      ecIter mode target sched engines iteration working ds2 evap2 ≠ .failed) := by
  refine ⟨rfl, ?_⟩
  intro mode sched engines iteration working ds2 evap2 rjScores rfScores fes he hf
  simp only [ecIter, he, hf, removeWorstAttributes]
  split <;> split <;> simp

/-- C6.  In mode BOTH, `ComputeFreeEnergy` fails (returns `false`, modelled
`none`) whenever the two score lists have different sizes, producing no
fused output, and an iteration whose engine outputs mismatch in size makes
the whole `ComputeECScores` run fail with no EC scores produced
(`some none`). -/
theorem computeFreeEnergy_size_mismatch_fails (temperature : ℚ)
    (rjScores rfScores : EcScores)
    (hne : rjScores.length ≠ rfScores.length) :
    computeFreeEnergy .EC_ALL temperature rjScores rfScores = none ∧
    (∀ target sched engines fuel iteration working (ds : List String)
        (evap fes : EcScores),
      target < working →
      engines iteration ds = some (rjScores, rfScores) →
      ecLoop .EC_ALL target sched engines (fuel + 1) iteration working ds evap fes
        = some none) := by
  have hcfe : computeFreeEnergy .EC_ALL temperature rjScores rfScores = none := by
    simp [computeFreeEnergy, hne]
  have hcfe1 : computeFreeEnergy .EC_ALL 1 rjScores rfScores = none := by
    simp [computeFreeEnergy, hne]
  refine ⟨hcfe, ?_⟩
  intro target sched engines fuel iteration working ds evap fes hw he
  have : ecIter .EC_ALL target sched engines iteration working ds evap = .failed := by
    simp [ecIter, he, hcfe1]
  simp [ecLoop, Nat.not_le.mpr hw, this]

/-- C6 witness: a 5-entry main-effect list against a 4-entry interaction
list makes fusion fail and aborts a run at once. -/
theorem computeFreeEnergy_size_mismatch_fails_witness :
    (([((1:ℚ), "a"), (2, "b"), (3, "c"), (4, "d"), (5, "e")] : EcScores).length ≠
      ([((1:ℚ), "a"), (2, "b"), (3, "c"), (4, "d")] : EcScores).length) ∧
    computeFreeEnergy .EC_ALL 1
      [((1:ℚ), "a"), (2, "b"), (3, "c"), (4, "d"), (5, "e")]
      [((1:ℚ), "a"), (2, "b"), (3, "c"), (4, "d")] = none ∧
    ecLoop .EC_ALL 1
      (fun _ => 1)
      (constantEngines [((1:ℚ), "a"), (2, "b"), (3, "c"), (4, "d"), (5, "e")]
        [((1:ℚ), "a"), (2, "b"), (3, "c"), (4, "d")])
      1 1 2 ["a", "b"] [] [] = some none := by
  have hne : (([((1:ℚ), "a"), (2, "b"), (3, "c"), (4, "d"), (5, "e")] :
      EcScores).length ≠
      ([((1:ℚ), "a"), (2, "b"), (3, "c"), (4, "d")] : EcScores).length) := by
    decide
  have h := computeFreeEnergy_size_mismatch_fails 1 _ _ hne
  exact ⟨hne, h.1, h.2 1 (fun _ => 1) _ 0 1 2 ["a", "b"] [] [] (by decide) rfl⟩

/-- Unfolding lemma for one completed loop pass: when the working count is
above target, the engines succeed, fusion succeeds, and the clamped removal
count is positive, the loop recurses on the state left by
`RemoveWorstAttributes`. -/
lemma ecLoop_next_step (mode : AlgorithmType) (target : Nat) (sched : Nat → Nat)
    (engines : EngineOracle) (fuel iteration working : Nat) (ds : List String)
    (evap fes : EcScores)
    (rjScores rfScores fes2 : EcScores) (clamped : Nat)
    (hw : target < working)
    (he : engines iteration ds = some (rjScores, rfScores))
    (hf : computeFreeEnergy mode 1 rjScores rfScores = some fes2)
    (hc : clamped = (if usub32 working (sched ds.length) < target
      then working - target else sched ds.length))
    (hc1 : 1 ≤ clamped) :
    ecLoop mode target sched engines (fuel + 1) iteration working ds evap fes =
      ecLoop mode target sched engines fuel (iteration + 1)
        (usub32 working clamped)
        ((List.insertionSort scoresSortAsc fes2).take
            (adjustedRemoveCount ds.length target clamped)
          |>.foldl (fun d p => d.erase p.2) ds)
        (evap ++ (List.insertionSort scoresSortAsc fes2).take
          (adjustedRemoveCount ds.length target clamped))
        (List.insertionSort scoresSortAsc fes2) := by
  have hiter : ecIter mode target sched engines iteration working ds evap =
      .next (iteration + 1) (usub32 working clamped)
        ((List.insertionSort scoresSortAsc fes2).take
            (adjustedRemoveCount ds.length target clamped)
          |>.foldl (fun d p => d.erase p.2) ds)
        (evap ++ (List.insertionSort scoresSortAsc fes2).take
          (adjustedRemoveCount ds.length target clamped))
        (List.insertionSort scoresSortAsc fes2) := by
    rw [ecIter, he]
    simp only [hf, ← hc, removeWorstAttributes, Nat.lt_one_iff]
    rw [if_neg (by omega)]
    simp
  simp [ecLoop, Nat.not_le.mpr hw, hiter]

/-- C9: the EC loop does not terminate for every configuration.  With 5
initial attributes, target 1 and `--ec-iter-remove-n` 2^31, the clamp
guard's unsigned subtraction never fires, each round subtracts 2^31 from the
working counter modulo 2^32, and the counter alternates between 5 and
2^31 + 5 forever: for every fuel bound the loop is still running (in the
source this round also reads the 1-entry fused list far out of bounds
instead of removing at least one attribute or breaking). -/
theorem ecLoop_can_run_forever :
    ∀ fuel iteration (ds : List String) (evap fes : EcScores),
      ecLoop .EC_ALL 1 (fun _ => 2 ^ 31)
        (constantEngines [((0:ℚ), "a")] [((0:ℚ), "a")])
        fuel iteration 5 ds evap fes = none ∧
      ecLoop .EC_ALL 1 (fun _ => 2 ^ 31)
        (constantEngines [((0:ℚ), "a")] [((0:ℚ), "a")])
        fuel iteration (2 ^ 31 + 5) ds evap fes = none := by
  have hcfe : computeFreeEnergy .EC_ALL 1 [((0:ℚ), "a")] [((0:ℚ), "a")] =
      some [(0 + 1 * 0, "a")] := by
    simp [computeFreeEnergy, List.insertionSort, List.orderedInsert]
  have h5 : usub32 5 (2 ^ 31) = 2 ^ 31 + 5 := by decide
  have h5' : ¬ usub32 5 (2 ^ 31) < 1 := by decide
  have hb : usub32 (2 ^ 31 + 5) (2 ^ 31) = 5 := by decide
  have hb' : ¬ usub32 (2 ^ 31 + 5) (2 ^ 31) < 1 := by decide
  intro fuel
  induction fuel with
  | zero => intro iteration ds evap fes; exact ⟨rfl, rfl⟩
  | succ fuel ih =>
    intro iteration ds evap fes
    constructor
    · rw [ecLoop_next_step .EC_ALL 1 (fun _ => 2 ^ 31) _ fuel iteration 5 ds
        evap fes _ _ _ (2 ^ 31) (by omega) rfl hcfe (if_neg h5').symm
        (by decide), h5]
      exact (ih _ _ _ _).2
    · rw [ecLoop_next_step .EC_ALL 1 (fun _ => 2 ^ 31) _ fuel iteration
        (2 ^ 31 + 5) ds evap fes _ _ _ (2 ^ 31) (by omega) rfl hcfe
        (if_neg hb').symm (by decide), hb]
      exact (ih _ _ _ _).1

/-- C4.  When every score in a (nonempty) list is the same — i.e. the list's
minimum equals its maximum, which includes every single-element list — both
normalizers (the Random Jungle one in `ReadRandomJungleScores` and the
Relief-F one in `RunReliefF`) return the list unchanged, every (score, name)
pair identical to the input, and the step still reports success (the
Relief-F normalizer's returned flag is `true`; the warning diagnostics are
console output outside the embedding). -/
theorem normalize_degenerate_unchanged (l : EcScores) (hne : l ≠ [])
    (hall : ∀ p ∈ l, ∀ q ∈ l, p.1 = q.1) :
    rjNormalize l = l ∧ runReliefFNormalize l = (l, true) := by
  obtain ⟨p, rest, rfl⟩ := List.exists_cons_of_ne_nil hne
  obtain ⟨_, ⟨q1, hq1, e1⟩, ⟨q2, hq2, e2⟩⟩ := rjMinMax_spec p rest
  have hdeg : (rjMinMax (p :: rest)).1 = (rjMinMax (p :: rest)).2 := by
    rw [← e1, ← e2]
    exact hall q1 hq1 q2 hq2
  constructor
  · simp [rjNormalize, hdeg]
  · simp [runReliefFNormalize, ← rjMinMax_eq_rfMinMax, hdeg]

/-- C4 witness: a single-element list passes through both normalizers
unchanged and successfully. -/
theorem normalize_degenerate_unchanged_witness :
    (([((2:ℚ), "a")] : EcScores) ≠ []) ∧
    rjNormalize [((2:ℚ), "a")] = [((2:ℚ), "a")] ∧
    runReliefFNormalize [((2:ℚ), "a")] = ([((2:ℚ), "a")], true) := by
  have h := normalize_degenerate_unchanged [((2:ℚ), "a")] (by simp) (by simp)
  exact ⟨by simp, h.1, h.2⟩

/-- C5.  When some two scores differ (minimum strictly below maximum), both
normalizers replace every score `s` by `(s - min) / (max - min)` where
`min`/`max` are the list's attained bounds; afterwards every score lies in
[0, 1], every entry keeps its attribute name (so in particular the argmin
and argmax names are unchanged), the rescaling map is strictly monotone,
and the relative order of any two entries by score is preserved. -/
theorem normalize_rescales_into_unit_interval (l : EcScores)
    (hlt : ∃ p ∈ l, ∃ q ∈ l, p.1 < q.1) :
    ∃ mn mx : ℚ,
      (∀ p ∈ l, mn ≤ p.1 ∧ p.1 ≤ mx) ∧
      (∃ p ∈ l, p.1 = mn) ∧ (∃ p ∈ l, p.1 = mx) ∧ mn < mx ∧
      rjNormalize l = l.map (fun p => ((p.1 - mn) / (mx - mn), p.2)) ∧
      runReliefFNormalize l =
        (l.map (fun p => ((p.1 - mn) / (mx - mn), p.2)), true) ∧
      StrictMono (fun s : ℚ => (s - mn) / (mx - mn)) ∧
      (∀ p ∈ rjNormalize l, 0 ≤ p.1 ∧ p.1 ≤ 1) ∧
      (rjNormalize l).map Prod.snd = l.map Prod.snd ∧
      (∀ p ∈ (runReliefFNormalize l).1, 0 ≤ p.1 ∧ p.1 ≤ 1) ∧
      (runReliefFNormalize l).1.map Prod.snd = l.map Prod.snd ∧
      (∀ i j si sj ti tj, l.get? i = some si → l.get? j = some sj →
        (rjNormalize l).get? i = some ti → (rjNormalize l).get? j = some tj →
        (ti.1 < tj.1 ↔ si.1 < sj.1)) := by
  obtain ⟨a, ha, b, hb, hab⟩ := hlt
  have hne : l ≠ [] := List.ne_nil_of_mem ha
  obtain ⟨p, rest, rfl⟩ := List.exists_cons_of_ne_nil hne
  obtain ⟨hbounds, hmn, hmx⟩ := rjMinMax_spec p rest
  have hlt2 : (rjMinMax (p :: rest)).1 < (rjMinMax (p :: rest)).2 :=
    lt_of_le_of_lt (hbounds a ha).1 (lt_of_lt_of_le hab (hbounds b hb).2)
  have hnode : (rjMinMax (p :: rest)).1 ≠ (rjMinMax (p :: rest)).2 :=
    ne_of_lt hlt2
  have hpos : (0:ℚ) < (rjMinMax (p :: rest)).2 - (rjMinMax (p :: rest)).1 :=
    sub_pos.mpr hlt2
  have hrj : rjNormalize (p :: rest) = (p :: rest).map
      (fun q => ((q.1 - (rjMinMax (p :: rest)).1) /
        ((rjMinMax (p :: rest)).2 - (rjMinMax (p :: rest)).1), q.2)) := by
    simp [rjNormalize, hnode]
  have hrf : runReliefFNormalize (p :: rest) = ((p :: rest).map
      (fun q => ((q.1 - (rjMinMax (p :: rest)).1) /
        ((rjMinMax (p :: rest)).2 - (rjMinMax (p :: rest)).1), q.2)), true) := by
    simp [runReliefFNormalize, ← rjMinMax_eq_rfMinMax, hnode]
  have hsm : StrictMono (fun s : ℚ => (s - (rjMinMax (p :: rest)).1) /
      ((rjMinMax (p :: rest)).2 - (rjMinMax (p :: rest)).1)) := by
    intro x y hxy
    exact (div_lt_div_iff_of_pos_right hpos).mpr (sub_lt_sub_right hxy _)
  have h01 : ∀ q ∈ (p :: rest).map
      (fun q => ((q.1 - (rjMinMax (p :: rest)).1) /
        ((rjMinMax (p :: rest)).2 - (rjMinMax (p :: rest)).1), q.2)),
      0 ≤ q.1 ∧ q.1 ≤ 1 := by
    intro q hq
    obtain ⟨x, hx, rfl⟩ := List.mem_map.mp hq
    exact ⟨div_nonneg (sub_nonneg.mpr (hbounds x hx).1) hpos.le,
      (div_le_one hpos).mpr (sub_le_sub_right (hbounds x hx).2 _)⟩
  have hnames : ((p :: rest).map
      (fun q => ((q.1 - (rjMinMax (p :: rest)).1) /
        ((rjMinMax (p :: rest)).2 - (rjMinMax (p :: rest)).1), q.2))).map
      Prod.snd = (p :: rest).map Prod.snd := by
    simp [List.map_map, Function.comp]
  refine ⟨(rjMinMax (p :: rest)).1, (rjMinMax (p :: rest)).2, hbounds, hmn,
    hmx, hlt2, hrj, hrf, hsm, ?_, ?_, ?_, ?_, ?_⟩
  · rw [hrj]
    exact h01
  · rw [hrj]
    exact hnames
  · rw [hrf]
    exact h01
  · rw [hrf]
    exact hnames
  · intro i j si sj ti tj hsi hsj hti htj
    rw [hrj] at hti htj
    rw [List.get?_eq_getElem?, List.getElem?_map] at hti htj
    rw [List.get?_eq_getElem?] at hsi hsj
    rw [hsi] at hti
    rw [hsj] at htj
    cases hti
    cases htj
    exact hsm.lt_iff_lt

/-- C5 witness: the two-score list `[(1, a), (3, b)]` has min 1 < max 3, so
the rescaling theorem applies to it. -/
theorem normalize_rescales_into_unit_interval_witness :
    (∃ p ∈ ([((1:ℚ), "a"), (3, "b")] : EcScores),
      ∃ q ∈ ([((1:ℚ), "a"), (3, "b")] : EcScores), p.1 < q.1) ∧
    (∃ mn mx : ℚ,
      (∀ p ∈ ([((1:ℚ), "a"), (3, "b")] : EcScores), mn ≤ p.1 ∧ p.1 ≤ mx) ∧
      (∃ p ∈ ([((1:ℚ), "a"), (3, "b")] : EcScores), p.1 = mn) ∧
      (∃ p ∈ ([((1:ℚ), "a"), (3, "b")] : EcScores), p.1 = mx) ∧ mn < mx ∧
      rjNormalize [((1:ℚ), "a"), (3, "b")] =
        ([((1:ℚ), "a"), (3, "b")] : EcScores).map
          (fun p => ((p.1 - mn) / (mx - mn), p.2)) ∧
      runReliefFNormalize [((1:ℚ), "a"), (3, "b")] =
        (([((1:ℚ), "a"), (3, "b")] : EcScores).map
          (fun p => ((p.1 - mn) / (mx - mn), p.2)), true) ∧
      StrictMono (fun s : ℚ => (s - mn) / (mx - mn)) ∧
      (∀ p ∈ rjNormalize [((1:ℚ), "a"), (3, "b")], 0 ≤ p.1 ∧ p.1 ≤ 1) ∧
      (rjNormalize [((1:ℚ), "a"), (3, "b")]).map Prod.snd =
        ([((1:ℚ), "a"), (3, "b")] : EcScores).map Prod.snd ∧
      (∀ p ∈ (runReliefFNormalize [((1:ℚ), "a"), (3, "b")]).1,
        0 ≤ p.1 ∧ p.1 ≤ 1) ∧
      (runReliefFNormalize [((1:ℚ), "a"), (3, "b")]).1.map Prod.snd =
        ([((1:ℚ), "a"), (3, "b")] : EcScores).map Prod.snd ∧
      (∀ i j si sj ti tj,
        ([((1:ℚ), "a"), (3, "b")] : EcScores).get? i = some si →
        ([((1:ℚ), "a"), (3, "b")] : EcScores).get? j = some sj →
        (rjNormalize [((1:ℚ), "a"), (3, "b")]).get? i = some ti →
        (rjNormalize [((1:ℚ), "a"), (3, "b")]).get? j = some tj →
        (ti.1 < tj.1 ↔ si.1 < sj.1))) := by
  have hlt : ∃ p ∈ ([((1:ℚ), "a"), (3, "b")] : EcScores),
      ∃ q ∈ ([((1:ℚ), "a"), (3, "b")] : EcScores), p.1 < q.1 :=
    ⟨((1:ℚ), "a"), by simp, ((3:ℚ), "b"), by simp, by norm_num⟩
  exact ⟨hlt, normalize_rescales_into_unit_interval _ hlt⟩

/-- Loop invariant for well-formed runs: engine outputs name exactly the
current attribute set, the per-round removal request never exceeds the
current attribute count (ruling out the unsigned wraparound documented at
`adjustedRemoveCount_underflow`), the dataset stays duplicate-free and in
step with the working counter — then the fused list held at loop exit is
strictly longer than the target. -/
lemma ecLoop_exit_fused_long (mode : AlgorithmType) (target : Nat)
    (sched : Nat → Nat) (engines : EngineOracle)
    (Hnames : ∀ i (ds : List String) rjScores rfScores,
      engines i ds = some (rjScores, rfScores) →
      rjScores.map Prod.snd ~ ds ∧ rfScores.map Prod.snd ~ ds)
    (Hsched : ∀ m, sched m ≤ m) :
    ∀ fuel iteration working (ds : List String) (evap fes : EcScores)
      (wf : Nat) (ff : EcScores),
      working = ds.length → ds.Nodup → ds.length < 2 ^ 32 →
      (target < working ∨ target < fes.length) →
      ecLoop mode target sched engines fuel iteration working ds evap fes =
        some (some (wf, ff)) →
      target < ff.length := by
  intro fuel
  induction fuel with
  | zero =>
    intro iteration working ds evap fes wf ff _ _ _ _ hrun
    simp [ecLoop] at hrun
  | succ fuel ih =>
    intro iteration working ds evap fes wf ff hsync hnodup hsize hinv hrun
    rw [ecLoop] at hrun
    by_cases hw : working ≤ target
    · rw [if_pos hw] at hrun
      simp only [Option.some.injEq, Prod.mk.injEq] at hrun
      rcases hinv with h | h
      · omega
      · exact hrun.2 ▸ h
    · rw [if_neg hw] at hrun
      rcases hEng : engines iteration ds with _ | ⟨rjScores, rfScores⟩
      · rw [ecIter, hEng] at hrun
        simp at hrun
      · obtain ⟨hrjn, hrfn⟩ := Hnames iteration ds rjScores rfScores hEng
        have hrjlen : rjScores.length = ds.length := by simpa using hrjn.length_eq
        have hrflen : rfScores.length = ds.length := by simpa using hrfn.length_eq
        rcases hCfe : computeFreeEnergy mode 1 rjScores rfScores with _ | fes2
        · rw [ecIter, hEng] at hrun
          simp [hCfe] at hrun
        · have hflen : fes2.length = ds.length :=
            computeFreeEnergy_length hrjlen hrflen hCfe
          have hfperm : fes2.map Prod.snd ~ ds :=
            computeFreeEnergy_names_perm hrjn hrfn hCfe
          rw [ecIter, hEng] at hrun
          simp only [hCfe] at hrun
          have hnle : sched ds.length ≤ working := by
            rw [hsync]
            exact Hsched ds.length
          have husub : usub32 working (sched ds.length) =
              working - sched ds.length :=
            usub32_eq_sub hnle (hsync ▸ hsize)
          by_cases hc1 : (if usub32 working (sched ds.length) < target
              then working - target else sched ds.length) < 1
          · rw [if_pos hc1] at hrun
            simp only [Option.some.injEq, Prod.mk.injEq] at hrun
            rw [← hrun.2, hflen, ← hsync]
            omega
          · rw [if_neg hc1] at hrun
            simp only [removeWorstAttributes] at hrun
            set clamped := (if usub32 working (sched ds.length) < target
              then working - target else sched ds.length) with hcl
            have hclle : clamped ≤ working := by
              rw [hcl]
              split_ifs
              · omega
              · exact hnle
            have husubc : usub32 working clamped = working - clamped :=
              usub32_eq_sub hclle (hsync ▸ hsize)
            have hadj : adjustedRemoveCount ds.length target clamped = clamped := by
              by_cases hg : usub32 working (sched ds.length) < target
              · have hclv : clamped = working - target := by rw [hcl, if_pos hg]
                rw [adjustedRemoveCount, ← hsync, hclv,
                  usub32_eq_sub (by omega) (hsync ▸ hsize), if_neg (by omega)]
              · have hclv : clamped = sched ds.length := by rw [hcl, if_neg hg]
                rw [adjustedRemoveCount, ← hsync, hclv, if_neg hg]
            obtain ⟨hdl, hdn⟩ := erase_fold_take_sorted fes2 ds
              (adjustedRemoveCount ds.length target clamped) hnodup hfperm
              (by rw [hadj, hflen, ← hsync]; exact hclle)
            refine ih (iteration + 1) (usub32 working clamped) _ _ _ wf ff
              ?_ hdn ?_ ?_ hrun
            · rw [husubc, hdl, hadj, hsync]
            · rw [hdl]
              omega
            · right
              rw [List.length_insertionSort, hflen, ← hsync]
              omega

/-- C8.  Whenever `ComputeECScores` returns success (the loop converged or
stalled), the returned EC scores are the final fused list sorted descending
by score and truncated to exactly `targetAttributeCount` entries — no more
and no fewer.  Hypotheses: the engines score exactly the current attribute
set (which the real engines do) and the per-round removal request never
exceeds the current attribute count (ruling out the unsigned-wraparound
regime recorded at `adjustedRemoveCount_underflow`). -/
theorem computeECScores_output_sorted_truncated (mode : AlgorithmType)
    (target : Nat) (sched : Nat → Nat) (engines : EngineOracle) (fuel : Nat)
    (dataset : List String) (out : EcScores)
    (Hnames : ∀ i (ds : List String) rjScores rfScores,
      engines i ds = some (rjScores, rfScores) →
      rjScores.map Prod.snd ~ ds ∧ rfScores.map Prod.snd ~ ds)
    (Hsched : ∀ m, sched m ≤ m)
    (Hnodup : dataset.Nodup) (Hsize : dataset.length < 2 ^ 32)
    (hrun : computeECScores mode target sched engines fuel dataset =
      some (some out)) :
    out.length = target ∧ List.Sorted scoresSortDesc out ∧
    ∃ fes, target < fes.length ∧
      out = (List.insertionSort scoresSortDesc fes).take target := by
  rw [computeECScores] at hrun
  by_cases hgt : dataset.length ≤ target
  · rw [if_pos hgt] at hrun
    simp at hrun
  · rw [if_neg hgt] at hrun
    rcases hL : ecLoop mode target sched engines fuel 1 dataset.length dataset
        [] [] with _ | r
    · rw [hL] at hrun
      simp at hrun
    · rcases r with _ | ⟨wf, ff⟩
      · rw [hL] at hrun
        simp at hrun
      · rw [hL] at hrun
        simp only [Option.some.injEq] at hrun
        have hff : target < ff.length :=
          ecLoop_exit_fused_long mode target sched engines Hnames Hsched fuel
            1 dataset.length dataset [] [] wf ff rfl Hnodup Hsize
            (Or.inl (by omega)) hL
        refine ⟨?_, ?_, ff, hff, hrun.symm⟩
        · rw [← hrun, List.length_take, List.length_insertionSort]
          omega
        · rw [← hrun]
          exact (List.sorted_insertionSort scoresSortDesc ff).sublist
            (List.take_sublist _ _)

/-- C8 witness: a run over attribute set `[a, b]` with target 1 that stalls
in its first round (removal request 0) and returns exactly one
descending-sorted entry. -/
theorem computeECScores_output_sorted_truncated_witness :
    (∀ i (ds : List String) rjScores rfScores,
      (fun (_ : Nat) (ds : List String) =>
          some (ds.map (fun nm => ((0:ℚ), nm)), ds.map (fun nm => ((0:ℚ), nm))))
        i ds = some (rjScores, rfScores) →
      rjScores.map Prod.snd ~ ds ∧ rfScores.map Prod.snd ~ ds) ∧
    (∀ m : Nat, (fun (_ : Nat) => 0) m ≤ m) ∧
    (["a", "b"] : List String).Nodup ∧
    (["a", "b"] : List String).length < 2 ^ 32 ∧
    computeECScores .EC_ALL 1 (fun _ => 0)
      (fun (_ : Nat) (ds : List String) =>
        some (ds.map (fun nm => ((0:ℚ), nm)), ds.map (fun nm => ((0:ℚ), nm))))
      1 ["a", "b"] = some (some [(0 + 1 * 0, "a")]) ∧
    ([((0:ℚ) + 1 * 0, "a")] : EcScores).length = 1 ∧
    List.Sorted scoresSortDesc [((0:ℚ) + 1 * 0, "a")] := by
  have Hnames : ∀ i (ds : List String) rjScores rfScores,
      (fun (_ : Nat) (ds : List String) =>
          some (ds.map (fun nm => ((0:ℚ), nm)), ds.map (fun nm => ((0:ℚ), nm))))
        i ds = some (rjScores, rfScores) →
      rjScores.map Prod.snd ~ ds ∧ rfScores.map Prod.snd ~ ds := by
    intro i ds rjScores rfScores h
    simp only [Option.some.injEq, Prod.mk.injEq] at h
    constructor
    · rw [← h.1]
      simp [List.map_map, Function.comp]
    · rw [← h.2]
      simp [List.map_map, Function.comp]
  have Hsched : ∀ m : Nat, (fun (_ : Nat) => 0) m ≤ m := fun m => Nat.zero_le m
  have hrun : computeECScores .EC_ALL 1 (fun _ => 0)
      (fun (_ : Nat) (ds : List String) =>
        some (ds.map (fun nm => ((0:ℚ), nm)), ds.map (fun nm => ((0:ℚ), nm))))
      1 ["a", "b"] = some (some [(0 + 1 * 0, "a")]) := by
    rw [computeECScores]
    norm_num [ecLoop, ecIter, computeFreeEnergy, usub32,
      List.insertionSort, List.orderedInsert, scoresSortAscByName,
      scoresSortDesc]
  have h := computeECScores_output_sorted_truncated .EC_ALL 1 (fun _ => 0) _ 1
    ["a", "b"] [(0 + 1 * 0, "a")] Hnames Hsched (by simp) (by simp) hrun
  exact ⟨Hnames, Hsched, by simp, by simp, hrun, h.1, h.2.1⟩

/-- C10 witness: a concrete pruning call whose adjusted removal count (1) is
within the fused list's length (2) returns success. -/
theorem removeWorstAttributes_always_succeeds_witness :
    adjustedRemoveCount 2 1 1 ≤
      ([((1:ℚ), "a"), (2, "b")] : EcScores).length ∧
    (removeWorstAttributes 2 1 1 [((1:ℚ), "a"), (2, "b")] [] ["a", "b"]).success
      = true := by
  refine ⟨by decide, ?_⟩
  exact (removeWorstAttributes_always_succeeds 2 1 1 [((1:ℚ), "a"), (2, "b")]
    [] ["a", "b"] (by decide)).1

end EC
